import Mathlib

/-
Verification of the tshell module (src/tshell.ts): a shallow embedding of
its data model and operations, with theorems checking the specification
claims about command flattening, context merging, task completion,
listener notification, argument parsing, output capture, and command-line
quoting.
-/

set_option maxHeartbeats 1000000

/-! ## Character helpers

Characters that appear in the source's string literals, written via
code points to keep the embedding free of quote-escaping ambiguity. -/

/-- The double-quote character, the source's `dq`. -/
def dqChar : Char := Char.ofNat 34

/-- The single-quote character, the source's `sq`. -/
def sqChar : Char := Char.ofNat 39

/-- The backslash character used in the escape replacement. -/
def bsChar : Char := Char.ofNat 92

/-- The newline character matched by the `/\n+/g` regular expression. -/
def nlChar : Char := Char.ofNat 10

/-- Build a string from a list of characters. -/
def ofChars (l : List Char) : String := String.mk l

/-! ## Command-line rendering (source: `quoteIf`, `cmdline`)

`quoteIf` models

    function quoteIf(s: string): string {
        let r = s
        if (r.indexOf(dq) >= 0) {
            if (r.indexOf(sq) >= 0) {
                r = s.replace(/\x27/g, "\x5c\x27")
            }
            r = sq + r + sq
        } else if (r.indexOf(sq) >= 0 || r.indexOf(' ') >= 0) {
            r = dq + s + dq
        }
        return r
    }

with `indexOf(c) >= 0` rendered as list membership of the character. -/

/-- Global replacement of each single quote by backslash-quote, the
source's `s.replace(/\x27/g, "\x5c\x27")`. -/
def jsReplaceSQ (l : List Char) : List Char :=
  l.foldr (fun c acc => if c = sqChar then bsChar :: sqChar :: acc else c :: acc) []

/-- Conditional quoting of one rendered argument (source `quoteIf`). -/
def quoteIf (s : String) : String :=
  let cs := s.toList
  if cs.contains dqChar then
    let r := if cs.contains sqChar then ofChars (jsReplaceSQ cs) else s
    ofChars [sqChar] ++ r ++ ofChars [sqChar]
  else if cs.contains sqChar || cs.contains ' ' then
    ofChars [dqChar] ++ s ++ ofChars [dqChar]
  else
    s

/-- JavaScript `Array.join(sep)` on a list of strings. -/
def joinWith (sep : String) : List String → String
  | [] => ""
  | [s] => s
  | s :: rest => s ++ sep ++ joinWith sep rest

/-- Rendering a full command line (source `cmdline`):
`[quoteIf(prog), ...argv.map(quoteIf)].join(' ')`. -/
def cmdline (prog : String) (argv : List String) : String :=
  joinWith " " ((prog :: argv).map quoteIf)

/-! ## Captured output (source: `CmdTask#captured` getter)

The getter is `this.output.join().replace(/\n+/g, ' ').trim()`, where
`output` is the list of captured chunks. Note `join()` with no argument
uses the comma separator. -/

/-- Collapse each run of newline characters to a single space, the
regular-expression replacement `replace(/\n+/g, ' ')`. The flag records
whether the previous character was part of a newline run. -/
def collapseNL : Bool → List Char → List Char
  | _, [] => []
  | inRun, c :: rest =>
    if c = nlChar then
      if inRun then collapseNL true rest else ' ' :: collapseNL true rest
    else
      c :: collapseNL false rest

/-- Whitespace characters for the purposes of JavaScript `trim` on the
strings this module produces. -/
def isWS (c : Char) : Bool :=
  c = ' ' || c = nlChar || c = Char.ofNat 9 || c = Char.ofNat 13

/-- JavaScript `String.trim`: drop whitespace from both ends. -/
def trimChars (l : List Char) : List Char :=
  ((l.dropWhile isWS).reverse.dropWhile isWS).reverse

/-- The `captured` getter: chunks joined by `Array.join()` (comma
separator), newline runs collapsed to a space, then trimmed. -/
def captured (chunks : List String) : String :=
  ofChars (trimChars (collapseNL false (joinWith "," chunks).toList))

/-- Plain concatenation of a list of strings. -/
def concatAll : List String → String
  | [] => ""
  | [s] => s
  | s :: rest => s ++ concatAll rest

/-- Modelled from the spec sentence for the claim under comparison: the
chunks concatenated (no separator), newline runs collapsed to a space,
then trimmed. -/
def specCaptured (chunks : List String) : String :=
  ofChars (trimChars (collapseNL false (concatAll chunks).toList))

/-! ## Commands and flattening (source: `cmd`, `subshell`, `flatten`)

A `Cmd` function object is represented by a record in a heap (a list of
records indexed by position), since JavaScript cycle detection is by
object identity and cycles can only be expressed through references. A
`Program` value is a string, a raw shell function, or a reference to a
`Cmd` in the heap. -/

/-- A program reference: a string program name, a shell function
(identified by its name), or a reference to a command in the heap. -/
inductive ProgRef where
  | str (s : String)
  | func (name : String)
  | ref (n : Nat)
deriving DecidableEq, Repr

/-- One `Cmd` record: its program and its bound-argument list, which is
`none` exactly when the command wraps a shell function (`subshell`
assigns no `args` property). -/
structure CmdRec where
  prog : ProgRef
  args : Option (List String)
deriving DecidableEq, Repr

/-- Result of flattening. `hang` models a walk that exhausts its fuel
(which would be an infinite loop in the source); `badRef` models a
dangling heap reference, impossible for real object references. -/
inductive FlatResult where
  | ok (prog : ProgRef) (args : List String)
  | cycleErr
  | hang
  | badRef
deriving DecidableEq, Repr

/-- Concatenation of a list of argument lists. -/
def joinAll : List (List String) → List String
  | [] => []
  | l :: rest => l ++ joinAll rest

/-- The `while` loop of the source's `flatten`, with explicit fuel. The
walk continues while the program is a command reference whose record has
a defined `args` property; a revisited command id raises the cycle
error. The collected lists are pushed at the end (`list.push(c.args)`)
and finally concatenated from the last list down to the first. -/
def flattenAux (heap : List CmdRec) : Nat → List Nat → ProgRef → List (List String) → FlatResult
  | 0, _, _, _ => .hang
  | fuel + 1, visited, p, list =>
    match p with
    | .str s => .ok (.str s) (joinAll list.reverse)
    | .func f => .ok (.func f) (joinAll list.reverse)
    | .ref n =>
      match heap.get? n with
      | none => .badRef
      | some c =>
        match c.args with
        | none => .ok (.ref n) (joinAll list.reverse)
        | some as =>
          if n ∈ visited then .cycleErr
          else flattenAux heap fuel (n :: visited) c.prog (list ++ [as])

/-- The source's `flatten(prog, args, job)`: the initial list is `[args]`
when `args` is defined and empty otherwise, and the fuel is one more
than the heap size, enough for any walk that does not revisit a
command. -/
def flatten (heap : List CmdRec) (p : ProgRef) (args : Option (List String)) : FlatResult :=
  flattenAux heap (heap.length + 1) [] p (match args with | some a => [a] | none => [])

/-- Invoking the command at heap index `n` with call-time arguments:
`cmd` builds `f(...args2) = promise(prog, args.concat(args2))`, and
`subshell` builds `f(...args) = promise(body, args)`. The promise runs
`flatten` on the stored program. -/
def invokeCmd (heap : List CmdRec) (n : Nat) (callArgs : List String) : FlatResult :=
  match heap.get? n with
  | none => .badRef
  | some c =>
    match c.args with
    | some as => flatten heap c.prog (some (as ++ callArgs))
    | none => flatten heap c.prog (some callArgs)

/-- A program reference is within bounds for a heap of the given size. -/
def refBound (len : Nat) : ProgRef → Prop
  | .ref n => n < len
  | _ => True

/-- A heap is closed when every stored program reference is in bounds. -/
def heapClosed (heap : List CmdRec) : Prop :=
  ∀ c ∈ heap, refBound heap.length c.prog

/-! ## Listeners and notifications (source: `ShellListener`, `CmdTask#post`)

A listener is modelled by which of its three optional methods are
defined (plus an identity for use in lists). Delivery of one
notification models the `nextTick` callback body
`listener[notification].apply(listener, args)`: looking up an undefined
method and calling `apply` on it raises a TypeError. -/

/-- The three notification kinds a task posts. -/
inductive EventKind where
  | started
  | finished
  | failed
deriving DecidableEq, Repr

/-- A registered listener: an identity and the presence of each of the
three optional methods of `ShellListener`. -/
structure Listener where
  ident : Nat
  hasStarted : Bool
  hasFinished : Bool
  hasFailed : Bool
deriving DecidableEq, Repr

/-- Whether `listener[notification]` is defined. -/
def methodDefined (l : Listener) : EventKind → Bool
  | .started => l.hasStarted
  | .finished => l.hasFinished
  | .failed => l.hasFailed

/-- Delivery of one notification to one listener, the body of the
`process.nextTick` callback in `CmdTask#post`: the source calls
`listener[notification].apply(listener, args)` unconditionally, so an
undefined method raises a TypeError instead of being skipped. -/
def deliver (l : Listener) (ev : EventKind) : Except String Unit :=
  if methodDefined l ev then .ok () else .error "TypeError: listener[notification] is undefined"

/-! ## Exit status and error values (source: `ExitStatus`, `ExitError`,
`SignalError`)

`ExitStatus = number | Error`. Error values carry the data the source
classes store in their fields; an `Option` field records a declared but
never-assigned (undefined) property. -/

/-- The error values of the module's taxonomy: non-zero exit, signal
termination, and redirection or spawn failures (which carry the
underlying I/O message). -/
inductive ErrVal where
  | exitErr (cmdline : String) (code : Int)
  | signalErr (cmdline : String) (signal : String)
  | ioErr (msg : String)
deriving DecidableEq, Repr

/-- An exit status: a numeric exit code or an error value. -/
inductive StatusV where
  | code (n : Int)
  | err (e : ErrVal)
deriving DecidableEq, Repr

/-- The `ExitError` object as its constructor builds it: the field
`cmdline` is declared in the class but the constructor only assigns
`this.code`, so `cmdline` is left undefined (`none`). -/
structure ExitErrorV where
  message : String
  cmdline : Option String
  code : Int
deriving DecidableEq, Repr

/-- Source constructor `ExitError(cmdline, code)`: it calls
`super(cmdline + ': exited with ' + code.toString())` and sets
`this.code = code`, and never assigns `this.cmdline`. -/
def mkExitError (cl : String) (c : Int) : ExitErrorV :=
  { message := cl ++ ": exited with " ++ toString c, cmdline := none, code := c }

/-- The `SignalError` object: its constructor assigns both fields. -/
structure SignalErrorV where
  message : String
  cmdline : Option String
  signal : String
deriving DecidableEq, Repr

/-- Source constructor `SignalError(cmdline, signal)`. -/
def mkSignalError (cl : String) (sig : String) : SignalErrorV :=
  { message := cl ++ ": " ++ sig, cmdline := some cl, signal := sig }

/-! ## Task completion (source: `CmdTask#returnStatus`,
`CmdTask#returnError`, `CmdTask#errorNotify`, the `close` handler of
`ChildTask#run`)

The outcome of settling one task: how the promise settles (rejection
carries an error value), which notification is posted, and the payload
the notification carries. -/

/-- Decidable equality for `Except` values, needed to evaluate concrete
outcomes. -/
instance {ε α : Type} [DecidableEq ε] [DecidableEq α] : DecidableEq (Except ε α) := fun a b =>
  match a, b with
  | .ok x, .ok y =>
    if h : x = y then .isTrue (congrArg _ h) else .isFalse (fun he => h (Except.ok.inj he))
  | .error x, .error y =>
    if h : x = y then .isTrue (congrArg _ h) else .isFalse (fun he => h (Except.error.inj he))
  | .ok _, .error _ => .isFalse (fun he => Except.noConfusion he)
  | .error _, .ok _ => .isFalse (fun he => Except.noConfusion he)

/-- How one completed task settles its promise and notifies. -/
structure TaskOutcome where
  settle : Except ErrVal StatusV
  event : EventKind
  payload : StatusV
deriving DecidableEq, Repr

/-- Source `returnStatus(sh, s)`: the settle decision reads
`sh.context.throwFlag` — the owning shell's live context flag, passed
here as `shellThrow`, not the per-call effective (job) context's flag.
Resolve and post `finished` when the status is the number zero or the
shell's context does not throw; otherwise build an `ExitError` from a
numeric status (or pass an error status through), reject, and post
`failed` with the original status value. -/
def returnStatusO (shellThrow : Bool) (cl : String) (s : StatusV) : TaskOutcome :=
  if s = .code 0 ∨ shellThrow = false then
    { settle := .ok s, event := .finished, payload := s }
  else
    match s with
    | .code n => { settle := .error (.exitErr cl n), event := .failed, payload := .code n }
    | .err e => { settle := .error e, event := .failed, payload := .err e }

/-- Source `returnError(sh, err)`: like `returnStatus`, the decision
reads `sh.context.throwFlag` (`shellThrow`). Reject and post `failed`
when the shell's context throws, otherwise resolve with the error
value itself and post `finished` with it. -/
def returnErrorO (shellThrow : Bool) (e : ErrVal) : TaskOutcome :=
  if shellThrow then
    { settle := .error e, event := .failed, payload := .err e }
  else
    { settle := .ok (.err e), event := .finished, payload := .err e }

/-- The result of `errorNotify`: how the task settles, plus whether the
error message was first written to the effective standard error. -/
structure NotifyOutcome where
  outcome : TaskOutcome
  stderrMessageWritten : Bool
deriving DecidableEq, Repr

/-- Source `errorNotify(err)` for redirection and spawn errors: this
method reads `this.context.throwFlag` — the per-call effective (job)
context's flag, passed here as `taskThrow`, a distinct read from the
shell flag the settle decision uses. When the effective context
throws it calls `returnError(this.sh, err)` directly; otherwise it
first writes the error message to the effective standard error and
then calls the same `returnError`, which re-checks the shell's flag. -/
def errorNotifyO (taskThrow shellThrow : Bool) (e : ErrVal) : NotifyOutcome :=
  if taskThrow then
    { outcome := returnErrorO shellThrow e, stderrMessageWritten := false }
  else
    { outcome := returnErrorO shellThrow e, stderrMessageWritten := true }

/-- The `close` handler of `ChildTask#run`: a signal produces a
`SignalError` through `returnError`, otherwise the numeric code goes
through `returnStatus`; both consult only the shell's flag. -/
def childCloseO (shellThrow : Bool) (cl : String) (code : Int) (signal : Option String) : TaskOutcome :=
  match signal with
  | some sig => returnErrorO shellThrow (.signalErr cl sig)
  | none => returnStatusO shellThrow cl (.code code)

/-- A failure condition of a call: non-zero process exit, signal
termination, or a redirection or spawn error. -/
inductive FailCond where
  | exited (code : Int)
  | signaled (sig : String)
  | spawnFail (msg : String)
deriving DecidableEq, Repr

/-- A condition is a genuine failure when an exit carries a non-zero
code (signals and spawn errors always are). -/
def isFailure : FailCond → Prop
  | .exited c => c ≠ 0
  | .signaled _ => True
  | .spawnFail _ => True

/-- The task outcome the source produces for each failure condition,
given the owning shell's live context flag (`shellThrow`, read by
`returnStatus`/`returnError`) and the per-call effective context's
flag (`taskThrow`, read only by `errorNotify`): exits and signals
reach the `close` handler, redirection and spawn errors reach
`errorNotify`. -/
def outcomeOf (shellThrow taskThrow : Bool) (cl : String) : FailCond → TaskOutcome
  | .exited c => childCloseO shellThrow cl c none
  | .signaled sig => childCloseO shellThrow cl 0 (some sig)
  | .spawnFail m => (errorNotifyO taskThrow shellThrow (.ioErr m)).outcome

/-- Whether settling the given failure condition writes the error
message to the effective standard error first: only a redirection or
spawn error under a non-throwing effective context does. -/
def stderrWriteOf (shellThrow taskThrow : Bool) : FailCond → Bool
  | .exited _ => false
  | .signaled _ => false
  | .spawnFail m => (errorNotifyO taskThrow shellThrow (.ioErr m)).stderrMessageWritten

/-- The error value the claim associates with each failure condition. -/
def errOf (cl : String) : FailCond → ErrVal
  | .exited c => .exitErr cl c
  | .signaled sig => .signalErr cl sig
  | .spawnFail m => .ioErr m

/-- The value the call resolves with under the non-throwing policy:
the numeric code for a non-zero exit, the error value itself for the
other conditions. -/
def resolveOf (cl : String) : FailCond → StatusV
  | .exited c => .code c
  | .signaled sig => .err (.signalErr cl sig)
  | .spawnFail m => .err (.ioErr m)

/-- Whether an outcome resolves with an error value standing in for the
status. -/
def isResolvedError (o : TaskOutcome) : Bool :=
  match o.settle with
  | .ok (.err _) => true
  | _ => false

/-- The scheduling loop of `CmdTask#post`: one `process.nextTick`
delivery is queued for every registered listener, in order. -/
def postSched (listeners : List Listener) (ev : EventKind) (payload : StatusV) :
    List (Listener × EventKind × StatusV) :=
  listeners.map (fun l => (l, ev, payload))

/-! ## Contexts and merging (source: `Context`, `ShellContext`)

A plain `Context` object has every property possibly undefined
(`Option`); the internal `ShellContext` always carries a concrete
environment object and listener array. Redirection values may be a
path string, a numeric file descriptor, a stream, or `null` (the
initial context assigns `null`, which is defined). -/

/-- A redirection value: `null`, a path string, a file descriptor, or a
stream handle (identified by a number). -/
inductive RVal where
  | null
  | path (s : String)
  | fd (n : Nat)
  | stream (ident : Nat)
deriving DecidableEq, Repr

/-- A plain `Context`: every field optional, `none` meaning the
property is undefined. -/
structure Ctx where
  dir : Option String
  env : Option (List (String × String))
  throwFlag : Option Bool
  traceFlag : Option Bool
  detachedFlag : Option Bool
  rIn : Option RVal
  rOut : Option RVal
  rOutErr : Option RVal
  rApp : Option RVal
  rAppErr : Option RVal
  listener : Option Listener
  listeners : Option (List Listener)
deriving DecidableEq, Repr

/-- A `ShellContext`: scalar properties may be undefined, but `env`
and `listeners` are always concrete (`initial` and `clone` assign
`{}` and `[]` before merging). -/
structure SCtx where
  dir : Option String
  throwFlag : Option Bool
  traceFlag : Option Bool
  detachedFlag : Option Bool
  rIn : Option RVal
  rOut : Option RVal
  rOutErr : Option RVal
  rApp : Option RVal
  rAppErr : Option RVal
  env : List (String × String)
  listeners : List Listener
deriving DecidableEq, Repr

/-- The defined-wins choice of the merge loop: the override's property
when it is defined (`context[p] !== undefined`), else the target's. -/
def defOr {α : Type} (o b : Option α) : Option α :=
  match o with
  | some v => some v
  | none => b

/-- JavaScript property assignment `target[k] = v` on an object
represented as an association list: replace the first binding of `k`,
or append a new binding. -/
def setKey : List (String × String) → String → String → List (String × String)
  | [], k, v => [(k, v)]
  | (k₀, v₀) :: rest, k, v =>
    if k₀ = k then (k₀, v) :: rest else (k₀, v₀) :: setKey rest k v

/-- `Object.assign(target, src)`: assign every binding of `src` onto
`target`, in order. -/
def assignEnv (target src : List (String × String)) : List (String × String) :=
  src.foldl (fun acc kv => setKey acc kv.1 kv.2) target

/-- Property lookup on an environment object. -/
def envLookup : List (String × String) → String → Option String
  | [], _ => none
  | (k₀, v) :: rest, k => if k₀ = k then some v else envLookup rest k

/-- The keys of an environment object are distinct (JavaScript objects
cannot bind the same key twice). -/
def keysNodup (e : List (String × String)) : Prop :=
  (e.map Prod.fst).Nodup

/-- Distinctness of keys is decidable, so witnesses can check it on
concrete environments. -/
instance (e : List (String × String)) : Decidable (keysNodup e) :=
  List.nodupDecidable _

/-- The source's `ShellContext#merge(context?)`: scalar and redirection
properties are copied when defined; `env` entries are assigned onto the
target environment; a `listener` and then any `listeners` are appended
to the target's listener list. -/
def mergeCtx (t : SCtx) (c : Ctx) : SCtx :=
  { dir := defOr c.dir t.dir
    throwFlag := defOr c.throwFlag t.throwFlag
    traceFlag := defOr c.traceFlag t.traceFlag
    detachedFlag := defOr c.detachedFlag t.detachedFlag
    rIn := defOr c.rIn t.rIn
    rOut := defOr c.rOut t.rOut
    rOutErr := defOr c.rOutErr t.rOutErr
    rApp := defOr c.rApp t.rApp
    rAppErr := defOr c.rAppErr t.rAppErr
    env := match c.env with | some e => assignEnv t.env e | none => t.env
    listeners := t.listeners
      ++ (match c.listener with | some l => [l] | none => [])
      ++ (match c.listeners with | some ls => ls | none => []) }

/-- Merge with an optional argument, as `merge(context?)` takes. -/
def mergeCtxO (t : SCtx) (c : Option Ctx) : SCtx :=
  match c with
  | some ctx => mergeCtx t ctx
  | none => t

/-- A `ShellContext` viewed as the merge source it is when `clone`
calls `merge(this)`: its concrete `env` and `listeners` are defined
properties and it has no `listener` property. -/
def toCtx (b : SCtx) : Ctx :=
  { dir := b.dir, env := some b.env, throwFlag := b.throwFlag,
    traceFlag := b.traceFlag, detachedFlag := b.detachedFlag,
    rIn := b.rIn, rOut := b.rOut, rOutErr := b.rOutErr,
    rApp := b.rApp, rAppErr := b.rAppErr,
    listener := none, listeners := some b.listeners }

/-- The fresh `ShellContext` that `clone` builds before merging:
`c.env = {}` and `c.listeners = []`, all other properties undefined. -/
def freshSCtx : SCtx :=
  { dir := none, throwFlag := none, traceFlag := none, detachedFlag := none,
    rIn := none, rOut := none, rOutErr := none, rApp := none, rAppErr := none,
    env := [], listeners := [] }

/-- The source's `ShellContext#clone(additions?)`: a fresh context,
merged with the base, then merged with the additions. -/
def cloneCtx (b : SCtx) (additions : Option Ctx) : SCtx :=
  mergeCtxO (mergeCtx freshSCtx (toCtx b)) additions

/-! ## Variadic exec arguments (source: `execArgs`, `exec`, `output`) -/

/-- One variadic argument of `exec` or `output`: a string or a context
override. -/
inductive ExecArg where
  | str (s : String)
  | ctx (c : Ctx)
deriving DecidableEq, Repr

/-- The validation loop of `execArgs`: every element must be a string;
the first offender at index `i` raises
`TypeError('args[' + i + ']: string required')`. -/
def checkArgs : List ExecArg → Nat → Except String (List String)
  | [], _ => .ok []
  | .str s :: rest, i => (checkArgs rest (i + 1)).map (fun ss => s :: ss)
  | .ctx _ :: _, i => .error ("args[" ++ toString i ++ "]: string required")

/-- The source's `execArgs(arglist)`: an empty list yields undefined
arguments and no override; otherwise, when the last element is a
string the whole list is the (checked) argument vector, and when it is
a context the preceding elements are the (checked) argument vector and
the last element the override. -/
def execArgs (arglist : List ExecArg) : Except String (Option (List String) × Option Ctx) :=
  match arglist.getLast? with
  | none => .ok (none, none)
  | some (.str _) => (checkArgs arglist 0).map (fun ss => (some ss, none))
  | some (.ctx c) => (checkArgs arglist.dropLast 0).map (fun ss => (some ss, some c))

/-- The task a successful `exec` call creates: the program, the parsed
argument vector, and the parsed context override. -/
structure TaskSpec where
  prog : ProgRef
  args : Option (List String)
  ctxOver : Option Ctx
deriving DecidableEq, Repr

/-- The source's `exec(p, ...arglist)` up to task creation: parse the
variadic arguments first, and only then build the task, so a TypeError
propagates before any task exists. -/
def execModel (p : ProgRef) (arglist : List ExecArg) : Except String TaskSpec :=
  (execArgs arglist).map (fun pr => { prog := p, args := pr.1, ctxOver := pr.2 })

/-! ## Shell state and `result` (source: `ShellImpl#result`, the global
`current`)

The mutable world holds every shell's state and the index of the
globally active shell. `result(value)` assigns `current = this` and
returns its argument. -/

/-- The mutable state of one `ShellImpl`. -/
structure ShellSt where
  context : SCtx
  stdinS : Nat
  stdoutS : Nat
  stderrS : Nat
  jobIdent : Nat
  status : StatusV
deriving DecidableEq, Repr

/-- The global mutable world: all shells and the active-shell index. -/
structure World where
  shells : List ShellSt
  currentIdx : Nat
deriving DecidableEq, Repr

/-- The source's `ShellImpl#result(value)` run by the shell at index
`self`: `current = this; return value`. -/
def resultOp (w : World) (self : Nat) (v : StatusV) : StatusV × World :=
  (v, { w with currentIdx := self })

/-- The shell state stored at an index of the world. -/
def shellAt (w : World) (i : Nat) : Option ShellSt :=
  w.shells.get? i

/-! ## Concrete example values used by witnesses -/

/-- A context with every property undefined. -/
def emptyCtx : Ctx :=
  { dir := none, env := none, throwFlag := none, traceFlag := none,
    detachedFlag := none, rIn := none, rOut := none, rOutErr := none,
    rApp := none, rAppErr := none, listener := none, listeners := none }

/-- An example base shell context: a directory, a throwing policy, two
environment entries, and one registered listener. -/
def exampleBase : SCtx :=
  { dir := some "/home", throwFlag := some true, traceFlag := none,
    detachedFlag := none, rIn := some .null, rOut := none, rOutErr := none,
    rApp := none, rAppErr := none,
    env := [("A", "1"), ("B", "2")],
    listeners := [{ ident := 1, hasStarted := true, hasFinished := true, hasFailed := true }] }

/-- An example override context: a falsy-but-defined directory and
throw flag, an environment entry that collides with the base, and both
a single listener and a listener list. -/
def exampleOver : Ctx :=
  { dir := some "", env := some [("B", "3"), ("C", "4")], throwFlag := some false,
    traceFlag := none, detachedFlag := none, rIn := none,
    rOut := some (.path "out.txt"), rOutErr := none, rApp := none, rAppErr := none,
    listener := some { ident := 2, hasStarted := true, hasFinished := false, hasFailed := false },
    listeners := some [{ ident := 3, hasStarted := false, hasFinished := true, hasFailed := false }] }

/-! ## Helper lemmas -/

/-- Merging a defined value with no base keeps the value. -/
theorem defOr_none {α : Type} (o : Option α) : defOr o none = o := by
  cases o <;> rfl

/-- Looking up after one property assignment. -/
theorem envLookup_setKey (m : List (String × String)) (k v k' : String) :
    envLookup (setKey m k v) k' = if k = k' then some v else envLookup m k' := by
  induction m with
  | nil => by_cases h : k = k' <;> simp [setKey, envLookup, h]
  | cons kv rest ih =>
    obtain ⟨k₀, v₀⟩ := kv
    by_cases h0 : k₀ = k
    · subst h0
      by_cases h1 : k₀ = k' <;> simp [setKey, envLookup, h1]
    · by_cases h1 : k₀ = k'
      · subst h1
        have : ¬ k = k₀ := fun h => h0 h.symm
        simp [setKey, envLookup, h0, this]
      · simp [setKey, envLookup, h0, h1, ih]

/-- A key outside an object's key set has no binding. -/
theorem envLookup_not_mem (e : List (String × String)) (k : String)
    (h : k ∉ e.map Prod.fst) : envLookup e k = none := by
  induction e with
  | nil => rfl
  | cons kv rest ih =>
    simp only [List.map_cons, List.mem_cons] at h
    push_neg at h
    have : kv.1 ≠ k := fun he => h.1 he.symm
    cases kv
    simp only [envLookup]
    rw [if_neg this]
    exact ih h.2

/-- `Object.assign` looks up as override-wins union when the source has
distinct keys. -/
theorem envLookup_assign (s : List (String × String)) (hs : keysNodup s)
    (t : List (String × String)) (k : String) :
    envLookup (assignEnv t s) k = defOr (envLookup s k) (envLookup t k) := by
  induction s generalizing t with
  | nil => simp [assignEnv, envLookup, defOr]
  | cons kv rest ih =>
    have hpair := List.nodup_cons.mp hs
    have hnd : keysNodup rest := hpair.2
    have hk : kv.1 ∉ rest.map Prod.fst := hpair.1
    have hstep : assignEnv t (kv :: rest) = assignEnv (setKey t kv.1 kv.2) rest := rfl
    rw [hstep, ih hnd, envLookup_setKey]
    by_cases hkk : kv.1 = k
    · have hrest : envLookup rest k = none := by
        apply envLookup_not_mem
        rw [← hkk]
        exact hk
      cases kv
      simp_all [envLookup, defOr]
    · cases kv
      simp_all [envLookup, defOr]

/-- The validation loop accepts a list of strings unchanged. -/
theorem checkArgs_strs (ss : List String) (i : Nat) :
    checkArgs (ss.map .str) i = .ok ss := by
  induction ss generalizing i with
  | nil => rfl
  | cons s tail ih => simp [checkArgs, ih (i + 1), Except.map]

/-- The validation loop reports the first non-string element's index. -/
theorem checkArgs_offender (ss : List String) (c : Ctx) (rest : List ExecArg) (i : Nat) :
    checkArgs (ss.map .str ++ .ctx c :: rest) i =
      .error ("args[" ++ toString (i + ss.length) ++ "]: string required") := by
  induction ss generalizing i with
  | nil => simp [checkArgs]
  | cons s tail ih =>
    have harith : i + 1 + tail.length = i + (tail.length + 1) := by omega
    simp [checkArgs, ih (i + 1), Except.map, harith]

/-- Fuel sufficiency for the flattening walk: with in-bounds references,
distinct in-bounds visited ids, and fuel exceeding the number of
unvisited commands, the walk ends in the cycle error or a flattened
job, never by exhausting fuel. -/
theorem flattenAux_total (heap : List CmdRec) (hcl : heapClosed heap) :
    ∀ (fuel : Nat) (visited : List Nat) (p : ProgRef) (list : List (List String)),
      refBound heap.length p →
      visited.Nodup → (∀ v ∈ visited, v < heap.length) →
      heap.length - visited.length < fuel →
      (flattenAux heap fuel visited p list = .cycleErr ∨
        ∃ q as, flattenAux heap fuel visited p list = .ok q as) := by
  intro fuel
  induction fuel with
  | zero =>
    intro visited p list _ _ _ hlt
    exact absurd hlt (by omega)
  | succ fuel ih =>
    intro visited p list hp hnd hb hlt
    cases p with
    | str s => right; exact ⟨_, _, rfl⟩
    | func f => right; exact ⟨_, _, rfl⟩
    | ref n =>
      have hn : n < heap.length := hp
      have hc : heap.get? n = some (heap.get ⟨n, hn⟩) := List.get?_eq_get hn
      have hcmem : heap.get ⟨n, hn⟩ ∈ heap := heap.get_mem _ _
      cases hargs : (heap.get ⟨n, hn⟩).args with
      | none =>
        right
        simp only [flattenAux, hc, hargs]
        exact ⟨_, _, rfl⟩
      | some as =>
        by_cases hv : n ∈ visited
        · left
          simp only [flattenAux, hc, hargs, if_pos hv]
        · have hnd' : (n :: visited).Nodup := List.nodup_cons.mpr ⟨hv, hnd⟩
          have hb' : ∀ v ∈ n :: visited, v < heap.length := by
            intro v hvm
            rcases List.mem_cons.mp hvm with h | h
            · subst h; exact hn
            · exact hb v h
          have hle : (n :: visited).length ≤ heap.length := by
            have hsub : (n :: visited) ⊆ List.range heap.length := by
              intro x hx
              rw [List.mem_range]
              exact hb' x hx
            have := (List.subperm_of_subset hnd' hsub).length_le
            simpa using this
          have hlt' : heap.length - (n :: visited).length < fuel := by
            simp only [List.length_cons] at hle ⊢
            omega
          have := ih (n :: visited) (heap.get ⟨n, hn⟩).prog (list ++ [as])
            (hcl _ hcmem) hnd' hb' hlt'
          simpa only [flattenAux, hc, hargs, if_neg hv] using this

/-! ## Claim theorems -/

/-- C1: for a chain A = cmd(B, aArgs), B = cmd(C, bArgs),
C = cmd(progString, cArgs), invoking A with call-time arguments
flattens to the base program string with argument vector
`cArgs ++ bArgs ++ aArgs ++ callArgs`, in that order. -/
theorem chain_flattens_in_order (progString : String)
    (aArgs bArgs cArgs callArgs : List String) :
    invokeCmd
      [{ prog := .ref 1, args := some aArgs },
       { prog := .ref 2, args := some bArgs },
       { prog := .str progString, args := some cArgs }] 0 callArgs
      = .ok (.str progString) (cArgs ++ bArgs ++ aArgs ++ callArgs) := by
  simp [invokeCmd, flatten, flattenAux, joinAll, List.get?, List.append_assoc]

/-- C4: flattening a closed command heap always terminates: the walk
never exhausts its fuel (never loops forever and never dangles), ending
either with the cycle error (when a command instance recurs) or with a
flattened base program reached in finitely many steps. -/
theorem flatten_total (heap : List CmdRec) (p : ProgRef) (args : Option (List String))
    (hcl : heapClosed heap) (hp : refBound heap.length p) :
    flatten heap p args = .cycleErr ∨
      ∃ q as, flatten heap p args = .ok q as := by
  unfold flatten
  exact flattenAux_total heap hcl (heap.length + 1) [] p _ hp List.nodup_nil
    (by intro v hv; cases hv) (by omega)

/-- Witness for C4 at the self-referential one-command heap: the
theorem applies, and the result there is in fact the cycle error. -/
theorem flatten_total_witness :
    (flatten [{ prog := .ref 0, args := some [] }] (.ref 0) none = .cycleErr ∨
      ∃ q as, flatten [{ prog := .ref 0, args := some [] }] (.ref 0) none = .ok q as) ∧
    flatten [{ prog := .ref 0, args := some [] }] (.ref 0) none = .cycleErr := by
  constructor
  · apply flatten_total
    · intro c hc
      rcases List.mem_singleton.mp hc with rfl
      simp [refBound]
    · simp [refBound]
  · decide

/-- C5: the claim says a listener missing the method for a notification
is skipped without effect or error, but the source's `post` schedules
`listener[notification].apply(listener, args)` unconditionally, so
delivery to a listener without the method raises a TypeError (shown at
the failing input: a listener defining only `started` receiving
`finished`), while a present method is invoked normally. -/
theorem deliver_missing_method_raises :
    deliver { ident := 0, hasStarted := true, hasFinished := false, hasFailed := false } .finished
      = .error "TypeError: listener[notification] is undefined" ∧
    deliver { ident := 0, hasStarted := true, hasFinished := false, hasFailed := false } .started
      = .ok () := by
  decide

/-- C6: the claim says every non-zero-exit error carries both the
command line and the code, but the `ExitError` constructor assigns only
`this.code` and never `this.cmdline`, so at the failing input the
`code` field is right while the `cmdline` field is undefined (it is
present only inside the message string). -/
theorem exitError_cmdline_unassigned :
    (mkExitError "echo hi" 1).code = 1 ∧
    (mkExitError "echo hi" 1).message = "echo hi: exited with 1" ∧
    (mkExitError "echo hi" 1).cmdline = none ∧
    (mkExitError "echo hi" 1).cmdline ≠ some "echo hi" := by
  refine ⟨rfl, by decide, rfl, by decide⟩

/-- C2 counterexample: with a per-call override making the effective
context non-throwing (`taskThrow = false`) on a shell whose live
context throws (`shellThrow = true`), a process exiting with code 7
still rejects with the `ExitError` and posts `failed` — the settle
decision in `returnStatus`/`returnError` reads the shell's flag, not
the effective context's flag the claim names; and even with both flags
false the call resolves with the numeric status 7, not with an error
value standing in for the status. -/
theorem effective_flag_not_consulted_cex :
    (outcomeOf true false "bash -c" (.exited 7)).settle = .error (.exitErr "bash -c" 7) ∧
    (outcomeOf true false "bash -c" (.exited 7)).event = .failed ∧
    (outcomeOf false false "bash -c" (.exited 7)).settle = .ok (.code 7) ∧
    isResolvedError (outcomeOf false false "bash -c" (.exited 7)) = false ∧
    (outcomeOf false false "bash -c" (.exited 7)).event = .finished := by
  decide

/-- C2 amended: completion is governed by the owning shell's live
context flag, whatever the per-call effective context's flag says.
When the shell's context throws, every failure condition rejects the
call with the corresponding error and posts `failed`; when it does
not, the call resolves — with the error value itself for signal
termination and redirection/spawn errors but with the numeric exit
code for a non-zero exit — and posts `finished`; either notification
is scheduled for every registered listener. The effective context's
own flag decides only whether a redirection/spawn error's message is
first written to the effective standard error. -/
theorem failure_propagation_policy (shellThrow taskThrow : Bool) (cl : String)
    (cond : FailCond) (ls : List Listener) (h : isFailure cond) :
    (shellThrow = true →
      (outcomeOf shellThrow taskThrow cl cond).settle = .error (errOf cl cond) ∧
      (outcomeOf shellThrow taskThrow cl cond).event = .failed) ∧
    (shellThrow = false →
      (outcomeOf shellThrow taskThrow cl cond).settle = .ok (resolveOf cl cond) ∧
      (outcomeOf shellThrow taskThrow cl cond).event = .finished) ∧
    (∀ l ∈ ls, (l, (outcomeOf shellThrow taskThrow cl cond).event,
        (outcomeOf shellThrow taskThrow cl cond).payload)
      ∈ postSched ls (outcomeOf shellThrow taskThrow cl cond).event
          (outcomeOf shellThrow taskThrow cl cond).payload) ∧
    (∀ m, cond = .spawnFail m →
      stderrWriteOf shellThrow taskThrow cond = !taskThrow) := by
  refine ⟨?_, ?_, ?_, ?_⟩
  · intro htf
    subst htf
    cases cond with
    | exited c =>
      have hc : c ≠ 0 := h
      simp [outcomeOf, childCloseO, returnStatusO, errOf, hc]
    | signaled sig => simp [outcomeOf, childCloseO, returnErrorO, errOf]
    | spawnFail m =>
      cases taskThrow <;> simp [outcomeOf, errorNotifyO, returnErrorO, errOf]
  · intro htf
    subst htf
    cases cond with
    | exited c => simp [outcomeOf, childCloseO, returnStatusO, resolveOf]
    | signaled sig => simp [outcomeOf, childCloseO, returnErrorO, resolveOf]
    | spawnFail m =>
      cases taskThrow <;> simp [outcomeOf, errorNotifyO, returnErrorO, resolveOf]
  · intro l hl
    exact List.mem_map_of_mem _ hl
  · intro m hm
    subst hm
    cases taskThrow <;> simp [stderrWriteOf, errorNotifyO]

/-- Witness for the amended C2 at the differing-flags input: a
non-zero exit under a non-throwing per-call override on a throwing
shell still rejects with the corresponding error. -/
theorem failure_propagation_policy_witness :
    (outcomeOf true false "bash -c" (.exited 7)).settle
      = .error (errOf "bash -c" (.exited 7)) :=
  ((failure_propagation_policy true false "bash -c" (.exited 7) []
    (by simp [isFailure])).1 rfl).1

/-- C7 counterexample: with two captured chunks the getter joins them
with `Array.join()`, whose default separator is a comma, so the result
differs from the claim's plain concatenation of the chunks. -/
theorem captured_comma_join_cex :
    captured ["a\n", "b\n"] = ofChars ['a', ' ', ',', 'b'] ∧
    specCaptured ["a\n", "b\n"] = ofChars ['a', ' ', 'b'] ∧
    captured ["a\n", "b\n"] ≠ specCaptured ["a\n", "b\n"] := by
  decide

/-- C7 amended: for captures of at most one chunk (the common case,
covering the quoted example) the resolved string matches the claim:
the chunk text with newline runs collapsed to a single space and ends
trimmed; with two or more chunks the chunks are joined with a comma
separator rather than concatenated. -/
theorem captured_single_chunk (chunks : List String) (h : chunks.length ≤ 1) :
    captured chunks = specCaptured chunks := by
  match chunks with
  | [] => rfl
  | [c] => rfl
  | a :: b :: rest => simp at h

/-- Witness for the amended C7 at the spec's example: the single chunk
produced by `echo` resolves to the collapsed and trimmed text. -/
theorem captured_single_chunk_witness :
    captured ["hi mom!\n"] = specCaptured ["hi mom!\n"] ∧
    captured ["hi mom!\n"] = "hi mom!" :=
  ⟨captured_single_chunk ["hi mom!\n"] (by decide), by decide⟩

/-- C3: cloning a base context with an override yields: every scalar
and redirection property equal to the override's exactly when defined
there (falsy-but-defined values included, since definedness is tracked
independently of the value) and inherited from the base otherwise; an
environment that looks up as the union with the override winning on
conflicting keys; and the base's listener list with the override's
listener and listener list appended, never replaced. -/
theorem clone_merge_semantics (b : SCtx) (o : Ctx)
    (hb : keysNodup b.env) (ho : ∀ e, o.env = some e → keysNodup e) :
    ((cloneCtx b (some o)).dir = defOr o.dir b.dir ∧
     (cloneCtx b (some o)).throwFlag = defOr o.throwFlag b.throwFlag ∧
     (cloneCtx b (some o)).traceFlag = defOr o.traceFlag b.traceFlag ∧
     (cloneCtx b (some o)).detachedFlag = defOr o.detachedFlag b.detachedFlag ∧
     (cloneCtx b (some o)).rIn = defOr o.rIn b.rIn ∧
     (cloneCtx b (some o)).rOut = defOr o.rOut b.rOut ∧
     (cloneCtx b (some o)).rOutErr = defOr o.rOutErr b.rOutErr ∧
     (cloneCtx b (some o)).rApp = defOr o.rApp b.rApp ∧
     (cloneCtx b (some o)).rAppErr = defOr o.rAppErr b.rAppErr) ∧
    (∀ k, envLookup (cloneCtx b (some o)).env k =
       defOr (match o.env with | some e => envLookup e k | none => none)
         (envLookup b.env k)) ∧
    (cloneCtx b (some o)).listeners = b.listeners ++
      ((match o.listener with | some l => [l] | none => []) ++
       (match o.listeners with | some ls => ls | none => [])) := by
  refine ⟨?_, ?_, ?_⟩
  · simp [cloneCtx, mergeCtxO, mergeCtx, toCtx, freshSCtx, defOr_none]
  · intro k
    have hbase : envLookup (assignEnv [] b.env) k = envLookup b.env k := by
      rw [envLookup_assign b.env hb [] k]
      cases hv : envLookup b.env k <;> simp [defOr, envLookup]
    cases he : o.env with
    | none =>
      simp only [cloneCtx, mergeCtxO, mergeCtx, toCtx, freshSCtx, he]
      simpa [defOr] using hbase
    | some e =>
      have hnd : keysNodup e := ho e he
      simp only [cloneCtx, mergeCtxO, mergeCtx, toCtx, freshSCtx, he]
      rw [envLookup_assign e hnd _ k, hbase]
  · simp [cloneCtx, mergeCtxO, mergeCtx, toCtx, freshSCtx]

/-- Witness for C3 at the concrete example contexts: falsy-but-defined
overrides take effect, the unset trace flag inherits, the colliding
environment key takes the override's value while the base-only key
survives, and the listeners accumulate after the base's. -/
theorem clone_merge_semantics_witness :
    (cloneCtx exampleBase (some exampleOver)).dir = defOr exampleOver.dir exampleBase.dir ∧
    (cloneCtx exampleBase (some exampleOver)).throwFlag
      = defOr exampleOver.throwFlag exampleBase.throwFlag ∧
    (cloneCtx exampleBase (some exampleOver)).throwFlag = some false ∧
    (cloneCtx exampleBase (some exampleOver)).traceFlag = none ∧
    envLookup (cloneCtx exampleBase (some exampleOver)).env "B" = some "3" ∧
    envLookup (cloneCtx exampleBase (some exampleOver)).env "A" = some "1" ∧
    (cloneCtx exampleBase (some exampleOver)).listeners
      = exampleBase.listeners ++
        [{ ident := 2, hasStarted := true, hasFinished := false, hasFailed := false },
         { ident := 3, hasStarted := false, hasFinished := true, hasFailed := false }] := by
  have h := clone_merge_semantics exampleBase exampleOver (by decide)
    (by intro e he; cases he; decide)
  refine ⟨h.1.1, h.1.2.1, ?_, ?_, ?_, ?_, ?_⟩
  · rw [h.1.2.1]; decide
  · rw [h.1.2.2.1]; decide
  · rw [h.2.1 "B"]; decide
  · rw [h.2.1 "A"]; decide
  · rw [h.2.2]; decide

/-- Escaping single quotes in a string without single quotes changes
nothing. -/
theorem jsReplaceSQ_no_sq (l : List Char) (h : l.contains sqChar = false) :
    jsReplaceSQ l = l := by
  induction l with
  | nil => rfl
  | cons c rest ih =>
    rw [List.contains_cons, Bool.or_eq_false_iff] at h
    have hc : ¬ c = sqChar := by
      intro he
      subst he
      simp at h
    have hrest := ih h.2
    simp only [jsReplaceSQ, List.foldr_cons, if_neg hc]
    simp only [jsReplaceSQ] at hrest
    rw [hrest]

/-- C8: an argument containing a double quote is wrapped in single
quotes with its single quotes escaped; otherwise an argument with a
single quote or a space is wrapped in double quotes; any other argument
is emitted verbatim; and the rendered command line is the rendered
program followed by the rendered arguments joined by single spaces. -/
theorem quoting_rules (s prog : String) (argv : List String) :
    (s.toList.contains dqChar = true →
      quoteIf s = ofChars [sqChar] ++ ofChars (jsReplaceSQ s.toList) ++ ofChars [sqChar]) ∧
    (s.toList.contains dqChar = false →
      (s.toList.contains sqChar || s.toList.contains ' ') = true →
      quoteIf s = ofChars [dqChar] ++ s ++ ofChars [dqChar]) ∧
    (s.toList.contains dqChar = false → s.toList.contains sqChar = false →
      s.toList.contains ' ' = false → quoteIf s = s) ∧
    cmdline prog argv = joinWith " " (quoteIf prog :: argv.map quoteIf) := by
  refine ⟨?_, ?_, ?_, ?_⟩
  · intro hdq
    simp only [quoteIf]
    rw [if_pos hdq]
    by_cases hsq : s.toList.contains sqChar = true
    · rw [if_pos hsq]
    · have hsq' : s.toList.contains sqChar = false := by
        cases hv : s.toList.contains sqChar
        · rfl
        · exact absurd hv hsq
      rw [if_neg hsq, jsReplaceSQ_no_sq s.toList hsq']
      rfl
  · intro hdq hrest
    simp only [quoteIf]
    rw [if_neg (by rw [hdq]; exact Bool.false_ne_true), if_pos hrest]
  · intro hdq hsq hsp
    simp only [quoteIf]
    rw [if_neg (by rw [hdq]; exact Bool.false_ne_true),
        if_neg (by rw [hsq, hsp]; simp)]
  · simp [cmdline]

/-- Witness for C8 at one concrete string per quoting rule and a
two-argument command line. -/
theorem quoting_rules_witness :
    quoteIf (ofChars ['a', dqChar, sqChar]) =
      ofChars [sqChar] ++ ofChars (jsReplaceSQ (ofChars ['a', dqChar, sqChar]).toList)
        ++ ofChars [sqChar] ∧
    quoteIf "a b" = ofChars [dqChar] ++ "a b" ++ ofChars [dqChar] ∧
    quoteIf "ab" = "ab" ∧
    cmdline "echo" ["hi mom!", "x"] =
      joinWith " " (quoteIf "echo" :: (["hi mom!", "x"].map quoteIf)) :=
  ⟨(quoting_rules (ofChars ['a', dqChar, sqChar]) "x" []).1 (by decide),
   (quoting_rules "a b" "x" []).2.1 (by decide) (by decide),
   (quoting_rules "ab" "x" []).2.2.1 (by decide) (by decide) (by decide),
   (quoting_rules "z" "echo" ["hi mom!", "x"]).2.2.2⟩

/-- C9: the variadic argument parse of `exec` and `output`: an empty
list yields no arguments and no override; a trailing context becomes
the override with the preceding strings as the argument vector; a
non-string among those preceding elements raises a TypeError naming the
first offending index; and a parse error propagates from `exec` before
any task is created. -/
theorem execArgs_parse :
    (execArgs [] = .ok (none, none)) ∧
    (∀ (ss : List String) (c : Ctx),
      execArgs (ss.map .str ++ [.ctx c]) = .ok (some ss, some c)) ∧
    (∀ (ss : List String) (c₀ c : Ctx) (rest : List ExecArg),
      execArgs (ss.map .str ++ .ctx c₀ :: rest ++ [.ctx c]) =
        .error ("args[" ++ toString ss.length ++ "]: string required")) ∧
    (∀ (p : ProgRef) (arglist : List ExecArg) (e : String),
      execArgs arglist = .error e → execModel p arglist = .error e) := by
  refine ⟨rfl, ?_, ?_, ?_⟩
  · intro ss c
    simp [execArgs, List.getLast?_concat, List.dropLast_concat, checkArgs_strs, Except.map]
  · intro ss c₀ c rest
    simp only [execArgs, List.getLast?_concat, List.dropLast_concat]
    rw [checkArgs_offender ss c₀ rest 0]
    simp [Except.map]
  · intro p arglist e he
    simp [execModel, he, Except.map]

/-- Witness for C9's propagation clause: two trailing contexts make the
parse fail at index 0 and `exec` propagate that TypeError. -/
theorem execArgs_parse_witness :
    execModel (.str "ls") [.ctx emptyCtx, .ctx emptyCtx]
      = .error "args[0]: string required" :=
  execArgs_parse.2.2.2 (.str "ls") [.ctx emptyCtx, .ctx emptyCtx]
    "args[0]: string required" (by decide)

/-- C10: `result` returns its status argument unchanged and its only
state effect is repointing the active-session index at the invoking
shell: every shell's stored state (context, stream handles, job
counter, last status) is untouched. -/
theorem result_frame (w : World) (self : Nat) (v : StatusV) :
    (resultOp w self v).1 = v ∧
    (resultOp w self v).2.currentIdx = self ∧
    (resultOp w self v).2.shells = w.shells ∧
    (∀ i, shellAt (resultOp w self v).2 i = shellAt w i) :=
  ⟨rfl, rfl, rfl, fun _ => rfl⟩
